import Mathlib

/-!
Shallow embedding of `zigpy/datastructures.py`:
`PriorityDynamicBoundedSemaphore`, `ReschedulableTimeout` and `Debouncer`,
together with theorems checking the specification's claims about them.

Python machine integers are unbounded, so counters are `Int`/`Nat`; the
monotonic clock readings (Python floats) are modelled as `Int` instants,
which suffices for every claim under study.  An `asyncio.Future` is
modelled by its observable state: pending, resolved (`set_result(True)`),
carrying an exception (`set_exception`), or cancelled.
-/

namespace Zigpy

/-- State of an `asyncio.Future` as observed by the semaphore code:
`done()` is true in every state but `pending`; `cancelled()` only in
`cancelledF`. -/
inductive FutState where
  | pending
  | resolved
  | excepted
  | cancelledF
  deriving DecidableEq, Repr

/-- Python `fut.done()`. -/
def FutState.done : FutState → Bool
  | .pending => false
  | _ => true

/-- Python `fut.cancelled()`. -/
def FutState.isCancelled : FutState → Bool
  | .cancelledF => true
  | _ => false

/-- One element of `PriorityDynamicBoundedSemaphore._waiters`: the tuple
`(-priority, count, fut)` built in `acquire`. -/
structure Waiter where
  negPriority : Int
  seq : Nat
  fut : FutState
  deriving DecidableEq, Repr

/-- The mutable state of a `PriorityDynamicBoundedSemaphore`:
`_value`, `_max_value`, `_comparison_counter` and `_waiters`. -/
structure SemState where
  value : Int
  max_value : Int
  comparison_counter : Nat
  waiters : List Waiter
  deriving DecidableEq, Repr

/-- Constructor `PriorityDynamicBoundedSemaphore(value)`. -/
def SemState.init (value : Int) : SemState :=
  { value := value, max_value := value, comparison_counter := 0, waiters := [] }

/-- Strict order on the `(-priority, count)` prefix of a waiter tuple.
Python compares the tuples `(-priority, count, fut)` lexicographically, but
since `count` values are pairwise distinct the comparison never reaches
`fut`; so the order is fully determined by this prefix. -/
def Waiter.key_lt (a b : Waiter) : Bool :=
  a.negPriority < b.negPriority ∨ (a.negPriority = b.negPriority ∧ a.seq < b.seq)

/-- Non-strict key order, used to state sortedness of `_waiters`. -/
def Waiter.key_le (a b : Waiter) : Prop :=
  a.negPriority < b.negPriority ∨ (a.negPriority = b.negPriority ∧ a.seq ≤ b.seq)

instance : DecidableRel Waiter.key_le := fun a b => by
  unfold Waiter.key_le; infer_instance

/-- Python `bisect.insort_right(self._waiters, obj)`: insert before the first
strictly greater element, i.e. after any equal keys. -/
def insort_right (w : Waiter) : List Waiter → List Waiter
  | [] => [w]
  | x :: xs => if w.key_lt x then w :: x :: xs else x :: insort_right w xs

/-- The scan inside `_wake_up_next`: find the first waiter whose future is
not done, resolve its future, and report whether one was found. -/
def wake_scan : List Waiter → Option (List Waiter)
  | [] => none
  | w :: ws =>
    if w.fut.done then
      match wake_scan ws with
      | none => none
      | some ws2 => some (w :: ws2)
    else
      some ({ w with fut := .resolved } :: ws)

/-- Method `_wake_up_next`: wake up the first waiter that isn't done, decrementing
`_value` when a grant happens; returns the Python method's boolean. -/
def wake_up_next (s : SemState) : SemState × Bool :=
  match wake_scan s.waiters with
  | none => (s, false)
  | some ws => ({ s with value := s.value - 1, waiters := ws }, true)

/-- Method `cancel_waiting(exc)`: set an exception on every waiter that is not
done. -/
def cancel_waiting (s : SemState) : SemState :=
  { s with
    waiters := s.waiters.map fun w =>
      if w.fut.done then w else { w with fut := .excepted } }

/-- Method `locked()`: `self._value <= 0 or any(not w.cancelled() ...)`. -/
def SemState.locked (s : SemState) : Bool :=
  decide (s.value ≤ 0) || s.waiters.any fun w => !w.fut.isCancelled

/-- Outcome of the non-suspending prefix of `acquire(priority)`: either an
immediate grant, or the caller was enqueued as waiter `w` and suspends. -/
inductive AcquireStart where
  | immediate (s : SemState)
  | suspended (s : SemState) (w : Waiter)
  deriving DecidableEq, Repr

/-- Method `acquire(priority)` up to the first suspension point: grab a permit
immediately when not locked, otherwise increment the comparison counter and
insert `(-priority, count, fut)` into `_waiters`. -/
def acquire_start (s : SemState) (priority : Int) : AcquireStart :=
  if s.locked then
    let c := s.comparison_counter + 1
    let w : Waiter := ⟨-priority, c, .pending⟩
    .suspended
      { s with comparison_counter := c, waiters := insort_right w s.waiters } w
  else
    .immediate { s with value := s.value - 1 }

/-- The loop in `acquire`'s outer `finally`:
`while self._value > 0: if not self._wake_up_next(): break`.
Each successful wake decrements `_value` by one, so `_value.toNat` steps of
fuel are exactly enough. -/
def top_up_fuel : Nat → SemState → SemState
  | 0, s => s
  | fuel + 1, s =>
    if 0 < s.value then
      match wake_up_next s with
      | (s2, true) => top_up_fuel fuel s2
      | (_, false) => s
    else s

/-- The opportunistic top-up pass run after every wait concludes. -/
def top_up (s : SemState) : SemState :=
  top_up_fuel s.value.toNat s

/-- Resumption of `acquire` when `await fut` returns normally: the waiter
removes itself from `_waiters`, runs the top-up pass and returns `True`. -/
def acquire_resume_success (s : SemState) (w : Waiter) : SemState × Except Unit Bool :=
  (top_up { s with waiters := s.waiters.erase w }, .ok true)

/-- Resumption of `acquire` when `await fut` raises `CancelledError`: the
waiter removes itself; if its future was resolved (granted but never
consumed) the permit is restored with `self._value += 1`; the top-up pass
runs, and the cancellation is re-raised (`.error ()`). -/
def acquire_on_cancel (s : SemState) (w : Waiter) : SemState × Except Unit Bool :=
  let s1 := { s with waiters := s.waiters.erase w }
  let s2 :=
    if w.fut.done && !w.fut.isCancelled then
      { s1 with value := s1.value + 1 }
    else s1
  (top_up s2, .error ())

/-- Method `release()`: raise `ValueError` when `self._value >= self._max_value`,
otherwise increment `_value` and call `_wake_up_next`. -/
def release (s : SemState) : Except String SemState :=
  if s.value ≥ s.max_value then
    .error "Semaphore released too many times"
  else
    .ok (wake_up_next { s with value := s.value + 1 }).1

/-- The loop in the `max_value` setter:
`for _ in range(max(0, delta)): if not self._wake_up_next(): break`. -/
def wake_loop : Nat → SemState → SemState
  | 0, s => s
  | n + 1, s =>
    match wake_up_next s with
    | (s2, true) => wake_loop n s2
    | (_, false) => s

/-- The `max_value` setter: reject a negative value, else shift `_value`
and `_max_value` by `delta` and wake up to `max(0, delta)` waiters. -/
def set_max_value (s : SemState) (new_value : Int) : Except String SemState :=
  if new_value < 0 then
    .error "Semaphore value must be >= 0"
  else
    let delta := new_value - s.max_value
    .ok (wake_loop (max 0 delta).toNat
      { s with value := s.value + delta, max_value := s.max_value + delta })

/-! ### Derived observations used to state the claims -/

/-- The first waiter whose future is not done — the one `_wake_up_next`
grants. -/
def first_pending : List Waiter → Option Waiter
  | [] => none
  | w :: ws => if w.fut.done then first_pending ws else some w

/-- Resolve the future of the first non-done waiter, leaving the rest
untouched. -/
def grant_first : List Waiter → List Waiter
  | [] => []
  | w :: ws =>
    if w.fut.done then w :: grant_first ws else { w with fut := .resolved } :: ws

/-- Resolve the futures of the first `k` non-done waiters in queue order. -/
def mark_pending : Nat → List Waiter → List Waiter
  | _, [] => []
  | 0, ws => ws
  | k + 1, w :: ws =>
    if w.fut.done then w :: mark_pending (k + 1) ws
    else { w with fut := .resolved } :: mark_pending k ws

/-- Number of waiters whose future is not done. -/
def pending_count (ws : List Waiter) : Nat :=
  ws.countP fun w => !w.fut.done

/-- Number of waiters whose future is resolved (granted, not yet
consumed). -/
def resolved_count (ws : List Waiter) : Nat :=
  ws.countP fun w => w.fut = .resolved

/-! ### `ReschedulableTimeout`

The state holds `_when` (the requested deadline), the fire time of the
armed platform timer if any (`_timer`), and — as observation for the
claims — the list of instants at which the callback has been invoked. -/

structure TimerState where
  when : Int
  timer : Option Int
  fired : List Int
  deriving DecidableEq, Repr

/-- Constructor `ReschedulableTimeout(callback)`: no timer armed, `_when = 0`, callback
never invoked yet. -/
def TimerState.init : TimerState :=
  { when := 0, timer := none, fired := [] }

/-- Method `_timeout_trigger`, run when the armed platform timer fires at `now`:
if the trigger is early relative to `_when`, re-arm at `_when` without
invoking the callback; otherwise clear the timer and invoke the callback. -/
def timeout_trigger (now : Int) (s : TimerState) : TimerState :=
  if s.when > now then
    { s with timer := some s.when }
  else
    { s with timer := none, fired := s.fired ++ [now] }

/-- Method `reschedule(delay)` called at instant `now`: set `_when := now + delay`
and re-arm only when no timer is armed or the armed timer fires too late. -/
def TimerState.reschedule (now delay : Int) (s : TimerState) : TimerState :=
  let w := now + delay
  let s1 := { s with when := w }
  match s1.timer with
  | none => { s1 with timer := some w }
  | some t => if t > w then { s1 with timer := some w } else s1

/-- Method `cancel()`. -/
def TimerState.cancel (s : TimerState) : TimerState :=
  { s with timer := none }

/-! ### `Debouncer`

Tracked objects are modelled as `Nat` identities.  `times` is the
insertion-ordered association list behind the `_times` dict, `queue` the
sorted list of `(-(now + expire_in), dedup_counter, obj)` triples. -/

structure DebState where
  times : List (Nat × Int)
  queue : List (Int × Nat × Nat)
  last_time : Int
  dedup_counter : Nat
  deriving DecidableEq, Repr

/-- Constructor `Debouncer()`. -/
def DebState.init : DebState :=
  { times := [], queue := [], last_time := 0, dedup_counter := 0 }

/-- Python `self._times.pop(obj)`: drop the binding of `obj`. -/
def erase_key (obj : Nat) (ts : List (Nat × Int)) : List (Nat × Int) :=
  ts.eraseP fun p => p.1 == obj

/-- The loop of `clean`:
`while self._queue and -self._queue[-1][0] < now:` pop the tail of the
queue and drop that object from `_times`.  Each iteration shortens the
queue by one, so `queue.length` steps of fuel are exactly enough. -/
def clean_fuel : Nat → Int → DebState → DebState
  | 0, _, s => s
  | fuel + 1, now, s =>
    match s.queue.getLast? with
    | none => s
    | some e =>
      if -e.1 < now then
        clean_fuel fuel now
          { s with queue := s.queue.dropLast, times := erase_key e.2.2 s.times }
      else s

/-- Method `clean(now)`. -/
def DebState.clean (now : Int) (s : DebState) : DebState :=
  clean_fuel s.queue.length now s

/-- Method `is_filtered(obj, now)`: clean, then report whether `obj` is still
tracked; returns the answer together with the mutated state. -/
def is_filtered (now : Int) (obj : Nat) (s : DebState) : Bool × DebState :=
  let s2 := s.clean now
  (s2.times.any fun p => p.1 == obj, s2)

/-- Python `bisect.insort_right(self._queue, item)` on the debouncer queue, with
full lexicographic comparison of the `(negExpiry, counter, obj)` triples
as Python performs on tuples of integers. -/
def insort_right_q (e : Int × Nat × Nat) : List (Int × Nat × Nat) → List (Int × Nat × Nat)
  | [] => [e]
  | x :: xs =>
    if e.1 < x.1 ∨ (e.1 = x.1 ∧ (e.2.1 < x.2.1 ∨ (e.2.1 = x.2.1 ∧ e.2.2 < x.2.2))) then
      e :: x :: xs
    else x :: insort_right_q e xs

/-- Method `filter(obj, expire_in)` called at instant `now`: update the dedup
counter (resetting it when the clock advanced), clean, and either report
the object as filtered or record it in both structures. -/
def DebState.filter (now : Int) (obj : Nat) (expire_in : Int) (s : DebState) :
    Bool × DebState :=
  let s1 :=
    if now > s.last_time then { s with last_time := now, dedup_counter := 0 } else s
  let s2 := { s1 with dedup_counter := s1.dedup_counter + 1 }
  let r := is_filtered now obj s2
  if r.1 then (true, r.2)
  else
    (false,
      { r.2 with
        times := r.2.times ++ [(obj, now + expire_in)],
        queue := insort_right_q (-(now + expire_in), s2.dedup_counter, obj) r.2.queue })

/-! ### Execution model for the semaphore

`fut_cancel` models the `asyncio` runtime cancelling a suspended task: a
pending future becomes cancelled.  A `Config` couples the semaphore state
with the number of permits currently held by callers, and `Step` is one
event of the cooperative execution, with the balanced-usage precondition
that `release` is only invoked by a caller holding a permit. -/

/-- Modelled from `asyncio` semantics: cancelling the task that awaits a
pending future marks that future cancelled. -/
def fut_cancel (s : SemState) (w : Waiter) : SemState :=
  { s with
    waiters := s.waiters.map fun x =>
      if x = w then { x with fut := .cancelledF } else x }

structure Config where
  sem : SemState
  held : Nat
  deriving DecidableEq, Repr

/-- One event of the semaphore's execution.  Each constructor is one of
the operations of the source, at the granularity of the suspension points
of `acquire`; `release_ok` carries the balanced-usage hypothesis that the
releasing caller holds a permit.  A waiter suspended in `await fut` can
resume through `CancelledError` (`cancel_repair`, the source's `except`
branch) whenever its future is done and the task was cancelled: with the
future resolved or cancelled, but also — since `asyncio` throws
`CancelledError` into a task cancelled while awaiting an already-done
future — with the future holding a `cancel_waiting` exception.  `Step
true` is the full event set of the program; `Step false` excludes that
last, excepted-future cancellation event. -/
inductive Step (exc : Bool) : Config → Config → Prop where
  | acquire_imm (c : Config) (p : Int) (s' : SemState)
      (h : acquire_start c.sem p = .immediate s') :
      Step exc c ⟨s', c.held + 1⟩
  | acquire_enq (c : Config) (p : Int) (s' : SemState) (w : Waiter)
      (h : acquire_start c.sem p = .suspended s' w) :
      Step exc c ⟨s', c.held⟩
  | release_ok (c : Config) (s' : SemState) (hheld : 1 ≤ c.held)
      (h : release c.sem = .ok s') :
      Step exc c ⟨s', c.held - 1⟩
  | set_max (c : Config) (n : Int) (s' : SemState)
      (h : set_max_value c.sem n = .ok s') :
      Step exc c ⟨s', c.held⟩
  | consume (c : Config) (w : Waiter) (hw : w ∈ c.sem.waiters)
      (hres : w.fut = .resolved) :
      Step exc c ⟨(acquire_resume_success c.sem w).1, c.held + 1⟩
  | fut_cancelled (c : Config) (w : Waiter) (hw : w ∈ c.sem.waiters)
      (hp : w.fut = .pending) :
      Step exc c ⟨fut_cancel c.sem w, c.held⟩
  | cancel_repair (c : Config) (w : Waiter) (hw : w ∈ c.sem.waiters)
      (hf : w.fut = .resolved ∨ w.fut = .cancelledF ∨
        (exc = true ∧ w.fut = .excepted)) :
      Step exc c ⟨(acquire_on_cancel c.sem w).1, c.held⟩
  | exc_resume (c : Config) (w : Waiter) (hw : w ∈ c.sem.waiters)
      (hf : w.fut = .excepted) :
      Step exc c ⟨top_up { c.sem with waiters := c.sem.waiters.erase w },
        c.held⟩
  | cancel_all (c : Config) :
      Step exc c ⟨cancel_waiting c.sem, c.held⟩

/-- Conservation of permits: grantable plus held plus granted-unconsumed
equals the capacity. -/
def Inv (c : Config) : Prop :=
  c.sem.value + c.held + resolved_count c.sem.waiters = c.sem.max_value

/-- Well-formedness of the debouncer's two structures: the queue sorted
ascending by its first component, a 1:1 correspondence between `_times`
and `_queue`, and no duplicated tracked identities. -/
def deb_wf (s : DebState) : Prop :=
  s.queue.Pairwise (fun a b => a.1 ≤ b.1) ∧
  (∀ o t, (o, t) ∈ s.times ↔ ∃ cnt, (-t, cnt, o) ∈ s.queue) ∧
  (s.times.map Prod.fst).Nodup ∧
  (s.queue.map fun e => e.2.2).Nodup

/-! ### Concrete scenario states used by the claims -/

/-- The semaphore state after the non-suspending prefix of `acquire`
(scenario plumbing). -/
def AcquireStart.state : AcquireStart → SemState
  | .immediate s => s
  | .suspended s _ => s

/-- Unpack a non-failing operation result (scenario plumbing). -/
def okD (d : SemState) : Except String SemState → SemState
  | .ok s => s
  | .error _ => d

/-- C1 scenario: capacity-1 semaphore, permit held, then three suspended
acquirers W1 (priority 5), W2 (priority 5), W3 (priority 10). -/
def c1_holder : SemState := (acquire_start (SemState.init 1) 0).state

def c1_enq1 : SemState := (acquire_start c1_holder 5).state

def c1_enq2 : SemState := (acquire_start c1_enq1 5).state

def c1_enq3 : SemState := (acquire_start c1_enq2 10).state

/-- First release: grants W3. -/
def c1_rel1 : SemState := okD c1_enq3 (release c1_enq3)

/-- W3's `acquire` resumes and consumes the grant. -/
def c1_after3 : SemState := (acquire_resume_success c1_rel1 ⟨-10, 3, .resolved⟩).1

/-- Second release: grants W1. -/
def c1_rel2 : SemState := okD c1_after3 (release c1_after3)

/-- W1's `acquire` resumes and consumes the grant. -/
def c1_after1 : SemState := (acquire_resume_success c1_rel2 ⟨-5, 1, .resolved⟩).1

/-- C2 counterexample trace: capacity-2 semaphore, two holders, three
waiters granted through releases and a capacity increase to 4, leaving
`value = 1` with three resolved-but-unconsumed waiters; then two more
acquirers W4, W5 enqueue and W4 is cancelled before any grant. -/
def c2_t2 : SemState :=
  (acquire_start ((acquire_start (SemState.init 2) 0).state) 0).state

def c2_t5 : SemState :=
  (acquire_start ((acquire_start ((acquire_start c2_t2 0).state) 0).state) 0).state

def c2_t7 : SemState := okD c2_t5 (release (okD c2_t5 (release c2_t5)))

def c2_t8 : SemState := okD c2_t7 (set_max_value c2_t7 4)

def c2_t10 : SemState :=
  (acquire_start ((acquire_start c2_t8 0).state) 0).state

/-- W4's task is cancelled while its future is still pending. -/
def c2_t11 : SemState := fut_cancel c2_t10 ⟨0, 4, .pending⟩

/-- C6 scenario: `reschedule(5)` at t=0, `reschedule(10)` at t=1, platform
timer fires at t=5 (early) and then at t=11. -/
def c6_s2 : TimerState :=
  TimerState.reschedule 1 10 (TimerState.reschedule 0 5 TimerState.init)

def c6_s3 : TimerState := timeout_trigger 5 c6_s2

def c6_s4 : TimerState := timeout_trigger 11 c6_s3

/-- C7/C8 scenario: object 0 tracked until 5. -/
def c7_a : DebState := (DebState.filter 0 0 5 DebState.init).2

/-- Object 1 additionally tracked until 1. -/
def c7_b : DebState := (DebState.filter 0 1 1 c7_a).2

/-- C9 failing input: `filter(0, 10)` at t=5 and `filter(1, 9)` at t=6
both produce the key prefix `(-15, 1)`. -/
def c9_a : DebState := (DebState.filter 5 0 10 DebState.init).2

def c9_b : DebState := (DebState.filter 6 1 9 c9_a).2

/-! ### Characterization lemmas for the grant machinery -/

theorem mark_pending_zero (ws : List Waiter) : mark_pending 0 ws = ws := by
  cases ws <;> rfl

theorem wake_scan_eq (ws : List Waiter) :
    wake_scan ws =
      if pending_count ws = 0 then none else some (grant_first ws) := by
  induction ws with
  | nil => rfl
  | cons w ws ih =>
    by_cases hd : w.fut.done
    · simp only [wake_scan, hd, if_pos, ih, grant_first, pending_count,
        List.countP_cons, Bool.not_eq_true']
      by_cases hc : ws.countP (fun w => !w.fut.done) = 0 <;>
        simp [pending_count, hc, hd]
    · simp [wake_scan, hd, grant_first, pending_count, List.countP_cons]

theorem wake_up_next_eq (s : SemState) :
    wake_up_next s =
      if pending_count s.waiters = 0 then (s, false)
      else ({ s with value := s.value - 1, waiters := grant_first s.waiters }, true) := by
  unfold wake_up_next
  rw [wake_scan_eq]
  by_cases h : pending_count s.waiters = 0 <;> simp [h]

@[simp] theorem FutState.done_resolved : (FutState.resolved).done = true := rfl

@[simp] theorem FutState.done_pending : (FutState.pending).done = false := rfl

@[simp] theorem FutState.done_excepted : (FutState.excepted).done = true := rfl

@[simp] theorem FutState.done_cancelledF : (FutState.cancelledF).done = true := rfl

theorem pending_count_nil : pending_count [] = 0 := rfl

theorem pending_count_cons (w : Waiter) (ws : List Waiter) :
    pending_count (w :: ws) = pending_count ws + if w.fut.done then 0 else 1 := by
  by_cases hd : w.fut.done <;> simp [pending_count, List.countP_cons, hd]

theorem mark_pending_succ (k : Nat) (ws : List Waiter) :
    mark_pending (k + 1) ws = mark_pending k (grant_first ws) := by
  induction ws generalizing k with
  | nil => cases k <;> rfl
  | cons w ws ih =>
    by_cases hd : w.fut.done
    · cases k with
      | zero =>
        rw [grant_first, if_pos hd, mark_pending_zero]
        simp [mark_pending, hd, ih 0, mark_pending_zero]
      | succ k =>
        rw [grant_first, if_pos hd]
        simp [mark_pending, hd, ih]
    · cases k with
      | zero =>
        rw [grant_first, if_neg hd, mark_pending_zero]
        simp [mark_pending, hd, mark_pending_zero]
      | succ k =>
        rw [grant_first, if_neg hd]
        simp [mark_pending, hd]

theorem pending_count_grant_first (ws : List Waiter) (h : pending_count ws ≠ 0) :
    pending_count (grant_first ws) = pending_count ws - 1 := by
  induction ws with
  | nil => simp [pending_count] at h
  | cons w ws ih =>
    by_cases hd : w.fut.done
    · have h2 : pending_count ws ≠ 0 := by
        simpa [pending_count_cons, hd] using h
      rw [grant_first, if_pos hd, pending_count_cons, pending_count_cons, ih h2,
        if_pos hd]
      omega
    · rw [grant_first, if_neg hd, pending_count_cons, pending_count_cons]
      simp [hd]

theorem top_up_fuel_eq (fuel : Nat) (s : SemState) (h : s.value.toNat = fuel) :
    top_up_fuel fuel s =
      { s with
        value := s.value - (min fuel (pending_count s.waiters) : Nat),
        waiters := mark_pending (min fuel (pending_count s.waiters)) s.waiters } := by
  induction fuel generalizing s with
  | zero => simp [top_up_fuel, mark_pending_zero]
  | succ fuel ih =>
    have hpos : 0 < s.value := by omega
    rw [top_up_fuel, if_pos hpos, wake_up_next_eq]
    by_cases hp : pending_count s.waiters = 0
    · simp [hp, mark_pending_zero]
    · obtain ⟨m, hm⟩ := Nat.exists_eq_succ_of_ne_zero hp
      rw [if_neg hp]
      dsimp only
      have h2 : (s.value - 1).toNat = fuel := by omega
      rw [ih _ h2]
      dsimp only
      rw [pending_count_grant_first _ hp, hm, Nat.succ_sub_one, Nat.succ_min_succ,
        mark_pending_succ]
      simp only [SemState.mk.injEq, eq_self_iff_true, and_true, true_and]
      push_cast
      ring

/-- Closed form of the opportunistic top-up pass: it grants exactly
`min value⁺ pending` waiters, the first pending ones in queue order. -/
theorem top_up_eq (s : SemState) :
    top_up s =
      { s with
        value := s.value - (min s.value.toNat (pending_count s.waiters) : Nat),
        waiters := mark_pending (min s.value.toNat (pending_count s.waiters)) s.waiters } :=
  top_up_fuel_eq _ s rfl

/-- Closed form of the wake loop in the `max_value` setter: `n` rounds of
`_wake_up_next` with early exit grant exactly `min n pending` waiters. -/
theorem wake_loop_eq (n : Nat) (s : SemState) :
    wake_loop n s =
      { s with
        value := s.value - (min n (pending_count s.waiters) : Nat),
        waiters := mark_pending (min n (pending_count s.waiters)) s.waiters } := by
  induction n generalizing s with
  | zero => simp [wake_loop, mark_pending_zero]
  | succ n ih =>
    rw [wake_loop, wake_up_next_eq]
    by_cases hp : pending_count s.waiters = 0
    · simp [hp, mark_pending_zero]
    · obtain ⟨m, hm⟩ := Nat.exists_eq_succ_of_ne_zero hp
      rw [if_neg hp]
      dsimp only
      rw [ih]
      dsimp only
      rw [pending_count_grant_first _ hp, hm, Nat.succ_sub_one, Nat.succ_min_succ,
        mark_pending_succ]
      simp only [SemState.mk.injEq, eq_self_iff_true, and_true, true_and]
      push_cast
      ring

/-! ### Sortedness of the waiter queue -/

theorem key_le_total (a b : Waiter) : a.key_le b ∨ b.key_le a := by
  unfold Waiter.key_le
  omega

theorem key_lt_le (a b : Waiter) (h : a.key_lt b = true) : a.key_le b := by
  unfold Waiter.key_lt at h
  unfold Waiter.key_le
  simp only [decide_eq_true_eq] at h
  omega

theorem key_not_lt_le (a b : Waiter) (h : a.key_lt b = false) : b.key_le a := by
  unfold Waiter.key_lt at h
  unfold Waiter.key_le
  simp only [decide_eq_false_iff_not, not_or, not_and, not_lt] at h
  omega

theorem insort_right_mem (w a : Waiter) (ws : List Waiter) :
    a ∈ insort_right w ws ↔ a = w ∨ a ∈ ws := by
  induction ws with
  | nil => simp [insort_right]
  | cons x xs ih =>
    by_cases hlt : w.key_lt x
    · simp [insort_right, hlt]
    · simp [insort_right, hlt, ih]
      tauto

/-- Insertion via `bisect.insort_right` keeps `_waiters` sorted by the waiter key. -/
theorem insort_right_sorted (w : Waiter) (ws : List Waiter)
    (h : ws.Pairwise Waiter.key_le) :
    (insort_right w ws).Pairwise Waiter.key_le := by
  induction ws with
  | nil => simp [insort_right, List.Pairwise.nil]
  | cons x xs ih =>
    rcases h with _ | ⟨hx, hxs⟩
    by_cases hlt : w.key_lt x
    · rw [insort_right, if_pos hlt]
      refine List.Pairwise.cons ?_ (List.Pairwise.cons hx hxs)
      intro b hb
      rcases List.mem_cons.mp hb with rfl | hb
      · exact key_lt_le _ _ hlt
      · rcases key_le_total w b with h1 | h1
        · exact h1
        · -- also fine directly: w < x ≤ b
          rcases key_lt_le _ _ hlt with h2 | h2 <;> rcases hx b hb with h3 | h3 <;>
            unfold Waiter.key_le at * <;> omega
    · rw [insort_right, if_neg hlt]
      refine List.Pairwise.cons ?_ (ih hxs)
      intro b hb
      rcases (insort_right_mem w b xs).mp hb with rfl | hb
      · exact key_not_lt_le _ _ (by simpa using hlt)
      · exact hx b hb

theorem insort_right_countP (w : Waiter) (ws : List Waiter) (p : Waiter → Bool) :
    (insort_right w ws).countP p = ws.countP p + if p w then 1 else 0 := by
  induction ws with
  | nil => by_cases hp : p w <;> simp [insort_right, hp]
  | cons x xs ih =>
    by_cases hlt : w.key_lt x
    · by_cases hp : p w <;> simp [insort_right, hlt, List.countP_cons, hp]
    · simp [insort_right, hlt, List.countP_cons, ih]
      omega

theorem first_pending_pending_count (ws : List Waiter) (w : Waiter)
    (h : first_pending ws = some w) : pending_count ws ≠ 0 := by
  induction ws with
  | nil => simp [first_pending] at h
  | cons x xs ih =>
    by_cases hd : x.fut.done
    · rw [first_pending, if_pos hd] at h
      rw [pending_count_cons, if_pos hd]
      simpa using ih h
    · rw [pending_count_cons, if_neg hd]
      omega

theorem resolved_count_nil : resolved_count [] = 0 := rfl

theorem resolved_count_cons (w : Waiter) (ws : List Waiter) :
    resolved_count (w :: ws) =
      resolved_count ws + if w.fut = .resolved then 1 else 0 := by
  by_cases hr : w.fut = .resolved <;> simp [resolved_count, List.countP_cons, hr]

theorem resolved_count_grant_first (ws : List Waiter) (h : pending_count ws ≠ 0) :
    resolved_count (grant_first ws) = resolved_count ws + 1 := by
  induction ws with
  | nil => simp [pending_count] at h
  | cons w ws ih =>
    by_cases hd : w.fut.done
    · have h2 : pending_count ws ≠ 0 := by
        simpa [pending_count_cons, hd] using h
      rw [grant_first, if_pos hd, resolved_count_cons, resolved_count_cons, ih h2]
      omega
    · have hp : w.fut ≠ .resolved := by
        intro hr; rw [hr] at hd; simp at hd
      rw [grant_first, if_neg hd, resolved_count_cons, resolved_count_cons]
      simp [hp]

theorem resolved_count_mark_pending (k : Nat) (ws : List Waiter) :
    resolved_count (mark_pending k ws) =
      resolved_count ws + min k (pending_count ws) := by
  induction ws generalizing k with
  | nil => simp [mark_pending, resolved_count_nil, pending_count_nil]
  | cons w ws ih =>
    by_cases hd : w.fut.done
    · cases k with
      | zero => simp [mark_pending_zero, pending_count_cons]
      | succ k =>
        rw [mark_pending, if_pos hd, resolved_count_cons, resolved_count_cons, ih,
          pending_count_cons, if_pos hd]
        omega
    · have hp : w.fut ≠ .resolved := by
        intro hr; rw [hr] at hd; simp at hd
      cases k with
      | zero => simp [mark_pending_zero, pending_count_cons]
      | succ k =>
        rw [mark_pending, if_neg hd, resolved_count_cons, resolved_count_cons, ih,
          pending_count_cons, if_neg hd]
        simp [hp, Nat.succ_min_succ]
        omega

theorem countP_erase_mem (p : Waiter → Bool) (w : Waiter) (ws : List Waiter)
    (h : w ∈ ws) :
    (ws.erase w).countP p + (if p w then 1 else 0) = ws.countP p := by
  induction ws with
  | nil => simp at h
  | cons x xs ih =>
    by_cases hx : x = w
    · subst hx
      simp [List.erase_cons_head, List.countP_cons]
    · have hxs : w ∈ xs := by
        rcases List.mem_cons.mp h with h1 | h1
        · exact absurd h1.symm hx
        · exact h1
      rw [List.erase_cons_tail (by simpa using fun h2 => hx h2), List.countP_cons,
        List.countP_cons, ← ih hxs]
      omega

/-- The waiter `_wake_up_next` grants is the key-least pending waiter:
no other pending waiter has a smaller `(-priority, count)` key. -/
theorem first_pending_min (ws : List Waiter) (h : ws.Pairwise Waiter.key_le)
    (w : Waiter) (hw : first_pending ws = some w) :
    w ∈ ws ∧ w.fut.done = false ∧
      ∀ w' ∈ ws, w'.fut.done = false → w.key_le w' := by
  induction ws with
  | nil => simp [first_pending] at hw
  | cons x xs ih =>
    rcases h with _ | ⟨hx, hxs⟩
    by_cases hd : x.fut.done
    · rw [first_pending, if_pos hd] at hw
      obtain ⟨h1, h2, h3⟩ := ih hxs hw
      refine ⟨List.mem_cons_of_mem _ h1, h2, ?_⟩
      intro w' hw' hp'
      rcases List.mem_cons.mp hw' with rfl | hw'
      · rw [hd] at hp'
        exact absurd hp' (by simp)
      · exact h3 w' hw' hp'
    · rw [first_pending, if_neg hd] at hw
      cases hw
      refine ⟨List.mem_cons_self _ _, by simpa using hd, ?_⟩
      intro w' hw' hp'
      rcases List.mem_cons.mp hw' with rfl | hw'
      · unfold Waiter.key_le
        omega
      · exact hx w' hw'

@[simp] theorem FutState.isCancelled_resolved :
    (FutState.resolved).isCancelled = false := rfl

@[simp] theorem FutState.isCancelled_pending :
    (FutState.pending).isCancelled = false := rfl

@[simp] theorem FutState.isCancelled_excepted :
    (FutState.excepted).isCancelled = false := rfl

@[simp] theorem FutState.isCancelled_cancelledF :
    (FutState.cancelledF).isCancelled = true := rfl

theorem FutState.eq_pending_of_not_done (f : FutState) (h : f.done = false) :
    f = .pending := by
  cases f <;> first | rfl | simp at h

theorem resolved_count_erase (w : Waiter) (ws : List Waiter) (h : w ∈ ws) :
    resolved_count (ws.erase w) + (if w.fut = .resolved then 1 else 0) =
      resolved_count ws := by
  have h2 := countP_erase_mem (fun x => decide (x.fut = .resolved)) w ws h
  unfold resolved_count
  simpa using h2

theorem resolved_count_map_cancel (w : Waiter) (hp : w.fut = .pending)
    (ws : List Waiter) :
    resolved_count
        (ws.map fun x => if x = w then { x with fut := .cancelledF } else x) =
      resolved_count ws := by
  induction ws with
  | nil => rfl
  | cons x xs ih =>
    rw [List.map_cons, resolved_count_cons, resolved_count_cons, ih]
    by_cases hx : x = w
    · subst hx
      simp [hp]
    · simp [hx]

theorem resolved_count_map_excepted (ws : List Waiter) :
    resolved_count
        (ws.map fun w => if w.fut.done then w else { w with fut := .excepted }) =
      resolved_count ws := by
  induction ws with
  | nil => rfl
  | cons x xs ih =>
    rw [List.map_cons, resolved_count_cons, resolved_count_cons, ih]
    by_cases hd : x.fut.done
    · simp [hd]
    · have hpend : x.fut = .pending :=
        FutState.eq_pending_of_not_done x.fut
          (by simp only [Bool.not_eq_true] at hd; exact hd)
      rw [hpend]
      simp

theorem clean_fuel_fields (fuel : Nat) (now : Int) (s t : DebState)
    (ht : t.times = s.times) (hq : t.queue = s.queue) :
    (clean_fuel fuel now t).times = (clean_fuel fuel now s).times ∧
      (clean_fuel fuel now t).queue = (clean_fuel fuel now s).queue := by
  induction fuel generalizing s t with
  | zero => exact ⟨ht, hq⟩
  | succ fuel ih =>
    rw [clean_fuel, clean_fuel, ht, hq]
    cases hL : s.queue.getLast? with
    | none => exact ⟨ht, hq⟩
    | some e =>
      dsimp only
      by_cases hexp : -e.1 < now
      · rw [if_pos hexp, if_pos hexp]
        exact ih _ _ (by simp) (by simp)
      · rw [if_neg hexp, if_neg hexp]
        exact ⟨ht, hq⟩

/-- Method `clean` reads and writes only `_times` and `_queue`: states agreeing
there clean to states agreeing there. -/
theorem clean_counter_fields (now : Int) (s t : DebState)
    (ht : t.times = s.times) (hq : t.queue = s.queue) :
    (t.clean now).times = (s.clean now).times ∧
      (t.clean now).queue = (s.clean now).queue := by
  unfold DebState.clean
  rw [hq]
  exact clean_fuel_fields _ now s t ht hq

theorem mem_eraseP_of_not {α : Type} (p : α → Bool) (a : α) (l : List α)
    (ha : a ∈ l) (hp : p a = false) : a ∈ l.eraseP p := by
  induction l with
  | nil => simp at ha
  | cons x xs ih =>
    by_cases hx : p x
    · rw [List.eraseP_cons_of_pos hx]
      rcases List.mem_cons.mp ha with rfl | h2
      · rw [hp] at hx; cases hx
      · exact h2
    · rw [List.eraseP_cons_of_neg (by simpa using hx)]
      rcases List.mem_cons.mp ha with rfl | h2
      · exact List.mem_cons_self _ _
      · exact List.mem_cons_of_mem _ (ih h2)

theorem not_mem_erase_key_self (oe : Nat) (t : Int) (ts : List (Nat × Int))
    (hnd : (ts.map Prod.fst).Nodup) : (oe, t) ∉ erase_key oe ts := by
  induction ts with
  | nil => simp [erase_key]
  | cons x xs ih =>
    rw [List.map_cons] at hnd
    obtain ⟨hx, hxs⟩ := List.nodup_cons.mp hnd
    unfold erase_key at *
    by_cases hpx : x.1 = oe
    · rw [List.eraseP_cons_of_pos (by simpa using hpx)]
      intro hmem
      have h2 : oe ∈ xs.map Prod.fst := by
        have := List.mem_map_of_mem Prod.fst hmem
        simpa using this
      rw [hpx] at hx
      exact hx h2
    · rw [List.eraseP_cons_of_neg (by simpa using hpx)]
      intro hmem
      rcases List.mem_cons.mp hmem with heq | hmem2
      · exact hpx (by rw [← heq])
      · exact ih hxs hmem2

/-- What the `clean` loop does on a well-formed debouncer: it drops from
the tail exactly the entries whose recorded expiry is strictly in the
past, and the `_times` entries that survive are exactly those with
`now ≤ expiry`. -/
theorem clean_spec (now : Int) (qu : List (Int × Nat × Nat)) :
    ∀ (ts : List (Nat × Int)) (lt : Int) (dc : Nat),
      deb_wf ⟨ts, qu, lt, dc⟩ →
      (DebState.clean now ⟨ts, qu, lt, dc⟩).queue =
          qu.filter (fun e => decide (now ≤ -e.1)) ∧
        ∀ o t, (o, t) ∈ (DebState.clean now ⟨ts, qu, lt, dc⟩).times ↔
          ((o, t) ∈ ts ∧ now ≤ t) := by
  induction qu using List.reverseRecOn with
  | nil =>
    intro ts lt dc hwf
    have hcl : DebState.clean now ⟨ts, [], lt, dc⟩ = ⟨ts, [], lt, dc⟩ := rfl
    rw [hcl]
    refine ⟨rfl, fun o t => ?_⟩
    have h0 := hwf.2.1 o t
    simp only [List.not_mem_nil, exists_const] at h0
    constructor
    · intro hmem
      exact absurd hmem (by simpa using h0)
    · rintro ⟨hmem, _⟩
      exact absurd hmem (by simpa using h0)
  | append_singleton q e ih =>
    intro ts lt dc hwf
    obtain ⟨hsort, hcorr, hnd1, hnd2⟩ := hwf
    have hoe_q : ∀ cnt ne, (ne, cnt, e.2.2) ∈ q → False := by
      intro cnt ne hmem
      rw [List.map_append] at hnd2
      have hdisj := (List.nodup_append.mp hnd2).2.2
      exact hdisj (by simpa using List.mem_map_of_mem (fun x => x.2.2) hmem)
        (by simp)
    have hql : (q ++ [e]).length = q.length + 1 := by simp
    unfold DebState.clean
    rw [hql, clean_fuel]
    dsimp only
    rw [List.getLast?_concat]
    dsimp only
    by_cases hexp : -e.1 < now
    · rw [if_pos hexp, List.dropLast_concat]
      have hrec :
          clean_fuel q.length now ⟨erase_key e.2.2 ts, q, lt, dc⟩ =
            DebState.clean now ⟨erase_key e.2.2 ts, q, lt, dc⟩ := rfl
      rw [hrec]
      have hwf2 : deb_wf ⟨erase_key e.2.2 ts, q, lt, dc⟩ := by
        refine ⟨(List.pairwise_append.mp hsort).1, ?_, ?_, ?_⟩
        · intro o t
          by_cases ho : o = e.2.2
          · subst ho
            constructor
            · intro hmem
              exact absurd hmem (not_mem_erase_key_self _ _ _ hnd1)
            · rintro ⟨cnt, hmem⟩
              exact (hoe_q cnt (-t) hmem).elim
          · constructor
            · intro hmem
              have hts : (o, t) ∈ ts :=
                List.Sublist.mem hmem (List.eraseP_sublist _)
              obtain ⟨cnt, hcnt⟩ := (hcorr o t).mp hts
              refine ⟨cnt, ?_⟩
              rcases List.mem_append.mp hcnt with h2 | h2
              · exact h2
              · exfalso
                have he2 : (-t, cnt, o) = e := by simpa using h2
                exact ho (by rw [← he2])
            · rintro ⟨cnt, hmem⟩
              have hts : (o, t) ∈ ts :=
                (hcorr o t).mpr ⟨cnt, List.mem_append_left _ hmem⟩
              exact mem_eraseP_of_not _ _ _ hts (by simpa using ho)
        · exact ((List.eraseP_sublist ts).map Prod.fst).nodup hnd1
        · exact ((List.sublist_append_left q [e]).map fun x => x.2.2).nodup hnd2
      obtain ⟨ihq, iht⟩ := ih (erase_key e.2.2 ts) lt dc hwf2
      refine ⟨?_, fun o t => ?_⟩
      · rw [ihq, List.filter_append]
        have he0 : decide (now ≤ -e.1) = false := by
          simp only [decide_eq_false_iff_not]
          omega
        simp [he0]
      · rw [iht o t]
        by_cases ho : o = e.2.2
        · subst ho
          constructor
          · rintro ⟨hmem, _⟩
            exact absurd hmem (not_mem_erase_key_self _ _ _ hnd1)
          · rintro ⟨hmem, hle⟩
            obtain ⟨cnt, hcnt⟩ := (hcorr _ t).mp hmem
            rcases List.mem_append.mp hcnt with h2 | h2
            · exact (hoe_q cnt (-t) h2).elim
            · have he2 : (-t, cnt, e.2.2) = e := by simpa using h2
              have ht2 : -t = e.1 := by rw [← he2]
              omega
        · constructor
          · rintro ⟨hmem, hle⟩
            exact ⟨List.Sublist.mem hmem (List.eraseP_sublist _), hle⟩
          · rintro ⟨hmem, hle⟩
            exact ⟨mem_eraseP_of_not _ _ _ hmem (by simpa using ho), hle⟩
    · rw [if_neg hexp]
      refine ⟨?_, fun o t => ?_⟩
      · rw [eq_comm, List.filter_eq_self]
        intro a ha
        simp only [decide_eq_true_eq]
        rcases List.mem_append.mp ha with h2 | h2
        · have hle : a.1 ≤ e.1 :=
            (List.pairwise_append.mp hsort).2.2 a h2 e (by simp)
          omega
        · have : a = e := by simpa using h2
          subst this
          omega
      · constructor
        · intro hmem
          refine ⟨hmem, ?_⟩
          obtain ⟨cnt, hcnt⟩ := (hcorr o t).mp hmem
          rcases List.mem_append.mp hcnt with h2 | h2
          · have hle : (-t, cnt, o).1 ≤ e.1 :=
              (List.pairwise_append.mp hsort).2.2 _ h2 e (by simp)
            simp only at hle
            omega
          · have he2 : (-t, cnt, o) = e := by simpa using h2
            have ht2 : -t = e.1 := by rw [← he2]
            omega
        · exact fun h => h.1

/-- Every event other than the excepted-future cancellation preserves the
permit conservation equation; the excluded event is precisely the one on
which it fails (see the C10 theorem). -/
theorem Step.preserves_Inv {c c' : Config} (h : Step false c c') (hi : Inv c) :
    Inv c' := by
  unfold Inv at *
  cases h with
  | acquire_imm p s' h =>
    rw [acquire_start] at h
    by_cases hl : c.sem.locked
    · rw [if_pos hl] at h; cases h
    · rw [if_neg hl] at h
      injection h with h2
      subst h2
      dsimp only
      push_cast at *
      omega
  | acquire_enq p s' w h =>
    rw [acquire_start] at h
    by_cases hl : c.sem.locked
    · rw [if_pos hl] at h
      injection h with h2 h3
      subst h2
      dsimp only
      have hr :
          resolved_count
              (insort_right ⟨-p, c.sem.comparison_counter + 1, .pending⟩
                c.sem.waiters) =
            resolved_count c.sem.waiters := by
        unfold resolved_count
        rw [insort_right_countP]
        simp
      rw [hr]
      exact hi
    · rw [if_neg hl] at h; cases h
  | release_ok s' hheld h =>
    rw [release] at h
    by_cases hv : c.sem.value ≥ c.sem.max_value
    · rw [if_pos hv] at h; cases h
    · rw [if_neg hv] at h
      injection h with h2
      rw [wake_up_next_eq] at h2
      dsimp only at h2
      by_cases hp : pending_count c.sem.waiters = 0
      · rw [if_pos hp] at h2
        dsimp only at h2
        subst h2
        dsimp only
        push_cast at *
        omega
      · rw [if_neg hp] at h2
        dsimp only at h2
        subst h2
        dsimp only
        rw [resolved_count_grant_first _ hp]
        push_cast at *
        omega
  | set_max n s' h =>
    rw [set_max_value] at h
    by_cases hn : n < 0
    · rw [if_pos hn] at h; cases h
    · rw [if_neg hn] at h
      injection h with h2
      rw [wake_loop_eq] at h2
      dsimp only at h2
      subst h2
      dsimp only
      rw [resolved_count_mark_pending]
      push_cast at *
      omega
  | consume w hw hres =>
    dsimp only [acquire_resume_success]
    rw [top_up_eq]
    dsimp only
    rw [resolved_count_mark_pending]
    have he := resolved_count_erase w c.sem.waiters hw
    rw [hres] at he
    simp only [if_pos rfl] at he
    push_cast at *
    omega
  | fut_cancelled w hw hp =>
    dsimp only [fut_cancel]
    rw [resolved_count_map_cancel w hp]
    exact hi
  | cancel_repair w hw hf =>
    dsimp only [acquire_on_cancel]
    have he := resolved_count_erase w c.sem.waiters hw
    rcases hf with hf | hf | ⟨hx, _⟩
    rotate_right
    · exact absurd hx (by simp)
    · rw [hf] at he ⊢
      simp only [FutState.done_resolved, FutState.isCancelled_resolved,
        Bool.not_false, Bool.and_self, if_pos rfl, if_true]
      rw [top_up_eq]
      dsimp only
      rw [resolved_count_mark_pending]
      simp only [if_pos rfl] at he
      push_cast at *
      omega
    · rw [hf] at he ⊢
      simp only [FutState.done_cancelledF, FutState.isCancelled_cancelledF,
        Bool.not_true, Bool.and_false, Bool.false_eq_true, if_false]
      rw [top_up_eq]
      dsimp only
      rw [resolved_count_mark_pending]
      simp at he
      push_cast at *
      omega
  | exc_resume w hw hf =>
    rw [top_up_eq]
    dsimp only
    rw [resolved_count_mark_pending]
    have he := resolved_count_erase w c.sem.waiters hw
    rw [hf] at he
    simp at he
    push_cast at *
    omega
  | cancel_all =>
    dsimp only [cancel_waiting]
    rw [resolved_count_map_excepted]
    exact hi

/-! ### Claim theorems -/

/-- C1: permits are granted in strictly descending priority order, ties
broken by ascending arrival sequence.  First conjunct: on a sorted queue
(an invariant `insort_right` preserves, second conjunct) `_wake_up_next`
grants the pending waiter whose `(-priority, count)` key is least, so any
other pending waiter has strictly lower priority or, on equal priority, a
later arrival sequence.  Last conjuncts: on a capacity-1 semaphore with
waiters W1 (priority 5, first), W2 (priority 5, second), W3 (priority 10,
third), successive releases grant W3, then W1, then W2. -/
theorem C1_grant_order :
    (∀ s : SemState, s.waiters.Pairwise Waiter.key_le →
      (s.waiters.map Waiter.seq).Nodup →
      ∀ w, first_pending s.waiters = some w →
        wake_up_next s =
          ({ s with value := s.value - 1, waiters := grant_first s.waiters }, true) ∧
        ∀ w' ∈ s.waiters, w'.fut.done = false → w' ≠ w →
          w.negPriority < w'.negPriority ∨
            (w.negPriority = w'.negPriority ∧ w.seq < w'.seq)) ∧
    (∀ (w : Waiter) (ws : List Waiter), ws.Pairwise Waiter.key_le →
      (insort_right w ws).Pairwise Waiter.key_le) ∧
    c1_enq3.waiters =
      [⟨-10, 3, .pending⟩, ⟨-5, 1, .pending⟩, ⟨-5, 2, .pending⟩] ∧
    first_pending c1_enq3.waiters = some ⟨-10, 3, .pending⟩ ∧
    first_pending c1_after3.waiters = some ⟨-5, 1, .pending⟩ ∧
    first_pending c1_after1.waiters = some ⟨-5, 2, .pending⟩ := by
  refine ⟨?_, insort_right_sorted, by decide, by decide, by decide, by decide⟩
  intro s hsort hseq w hw
  obtain ⟨hmem, hpend, hmin⟩ := first_pending_min s.waiters hsort w hw
  constructor
  · rw [wake_up_next_eq, if_neg (first_pending_pending_count s.waiters w hw)]
  · intro w' hw' hp' hne
    have hle := hmin w' hw' hp'
    rcases hle with h1 | ⟨h1, h2⟩
    · exact Or.inl h1
    · refine Or.inr ⟨h1, lt_of_le_of_ne h2 fun hs => hne ?_⟩
      exact List.inj_on_of_nodup_map hseq hw' hmem hs.symm

/-- C1 witness: the general conjunct applied to the concrete sorted queue
of the scenario: the granted waiter W3 beats the pending waiter W1. -/
theorem C1_grant_order_witness :
    c1_enq3.waiters.Pairwise Waiter.key_le ∧
      ((-10 : Int) < -5 ∨ ((-10 : Int) = -5 ∧ 3 < 1)) :=
  ⟨by decide,
    (C1_grant_order.1 c1_enq3 (by decide) (by decide) ⟨-10, 3, .pending⟩
          (by decide)).2
      ⟨-5, 1, .pending⟩ (by decide) (by decide) (by decide)⟩

/-- C3: `locked()` is true iff the counter is ≤ 0 or some non-cancelled
waiter is queued; consequently an `acquire` arriving while the counter is
positive but a non-cancelled waiter is queued suspends — it enqueues
itself via `insort_right` instead of taking a permit. -/
theorem C3_locked_and_late_arrival (s : SemState) (p : Int) :
    (s.locked = true ↔
      (s.value ≤ 0 ∨ ∃ w ∈ s.waiters, w.fut.isCancelled = false)) ∧
    (0 < s.value → (∃ w ∈ s.waiters, w.fut.isCancelled = false) →
      acquire_start s p =
        .suspended
          { s with
            comparison_counter := s.comparison_counter + 1,
            waiters :=
              insort_right ⟨-p, s.comparison_counter + 1, .pending⟩ s.waiters }
          ⟨-p, s.comparison_counter + 1, .pending⟩) := by
  have hiff : s.locked = true ↔
      (s.value ≤ 0 ∨ ∃ w ∈ s.waiters, w.fut.isCancelled = false) := by
    unfold SemState.locked
    simp [List.any_eq_true, Bool.not_eq_true']
  refine ⟨hiff, fun hv hw => ?_⟩
  have hl : s.locked = true := hiff.mpr (Or.inr hw)
  rw [acquire_start, if_pos hl]

/-- C3 witness: a fresh acquire at priority 0 on a semaphore with one free
permit but a pending waiter suspends behind it. -/
theorem C3_locked_and_late_arrival_witness :
    (0 : Int) < 1 ∧
      acquire_start ⟨1, 2, 1, [⟨0, 1, .pending⟩]⟩ 0 =
        .suspended ⟨1, 2, 2, [⟨0, 1, .pending⟩, ⟨0, 2, .pending⟩]⟩
          ⟨0, 2, .pending⟩ :=
  ⟨by decide,
    (C3_locked_and_late_arrival ⟨1, 2, 1, [⟨0, 1, .pending⟩]⟩ 0).2 (by decide)
      ⟨⟨0, 1, .pending⟩, by simp, by decide⟩⟩

/-- C4: the `max_value` setter rejects a negative capacity (error, state
unchanged); for `n ≥ 0` it shifts both `_value` and `_max_value` by
`delta = n - max_value` and grants `min (max 0 delta) pending` waiters —
the first pending ones in queue order, stopping early when no grantable
waiter remains; for `delta ≤ 0` it grants nobody and revokes nothing. -/
theorem C4_set_max_value (s : SemState) (n : Int) :
    (n < 0 → set_max_value s n = .error "Semaphore value must be >= 0") ∧
    (0 ≤ n →
      set_max_value s n =
        .ok { s with
          value := s.value + (n - s.max_value) -
            (min (max 0 (n - s.max_value)).toNat (pending_count s.waiters) : Nat),
          max_value := n,
          waiters :=
            mark_pending
              (min (max 0 (n - s.max_value)).toNat (pending_count s.waiters))
              s.waiters }) ∧
    (0 ≤ n → n - s.max_value ≤ 0 →
      set_max_value s n =
        .ok { s with value := s.value + (n - s.max_value), max_value := n }) := by
  have h2 : 0 ≤ n →
      set_max_value s n =
        .ok { s with
          value := s.value + (n - s.max_value) -
            (min (max 0 (n - s.max_value)).toNat (pending_count s.waiters) : Nat),
          max_value := n,
          waiters :=
            mark_pending
              (min (max 0 (n - s.max_value)).toNat (pending_count s.waiters))
              s.waiters } := by
    intro hn
    rw [set_max_value, if_neg (not_lt.mpr hn)]
    dsimp only
    rw [wake_loop_eq]
    dsimp only
    simp only [Except.ok.injEq, SemState.mk.injEq, eq_self_iff_true, and_true,
      true_and]
    ring
  refine ⟨fun hn => by rw [set_max_value, if_pos hn], h2, fun hn hd => ?_⟩
  rw [h2 hn]
  have hz : (max 0 (n - s.max_value)).toNat = 0 := by omega
  rw [hz]
  simp [mark_pending_zero]

/-- C4 witness: raising the capacity of a drained semaphore from 1 to 2
with two queued waiters grants exactly one of them, in queue order. -/
theorem C4_set_max_value_witness :
    (0 : Int) ≤ 2 ∧
      set_max_value ⟨0, 1, 2, [⟨0, 1, .pending⟩, ⟨0, 2, .pending⟩]⟩ 2 =
        .ok ⟨0, 2, 2, [⟨0, 1, .resolved⟩, ⟨0, 2, .pending⟩]⟩ :=
  ⟨by decide,
    by
      have h :=
        (C4_set_max_value ⟨0, 1, 2, [⟨0, 1, .pending⟩, ⟨0, 2, .pending⟩]⟩ 2).2.1
          (by decide)
      exact h⟩

/-- C5: under the reachable-state invariant `value ≤ max_value`,
`release()` raises the over-release `ValueError` iff the counter equals
the capacity at entry (the failing branch mutates nothing); otherwise it
increments the counter by one and grants the first non-done queued waiter
when one exists. -/
theorem C5_release_over_release (s : SemState) (h : s.value ≤ s.max_value) :
    ((∃ e, release s = .error e) ↔ s.value = s.max_value) ∧
    (s.value = s.max_value →
      release s = .error "Semaphore released too many times") ∧
    (s.value < s.max_value →
      release s =
        .ok (if pending_count s.waiters = 0 then { s with value := s.value + 1 }
          else { s with waiters := grant_first s.waiters })) := by
  have hok : s.value < s.max_value →
      release s =
        .ok (if pending_count s.waiters = 0 then { s with value := s.value + 1 }
          else { s with waiters := grant_first s.waiters }) := by
    intro hlt
    rw [release, if_neg (not_le.mpr hlt), wake_up_next_eq]
    by_cases hp : pending_count s.waiters = 0
    · simp [hp]
    · rw [if_neg (by simpa using hp), if_neg hp]
      dsimp only
      simp only [Except.ok.injEq, SemState.mk.injEq, eq_self_iff_true, and_true,
        true_and]
      ring
  have herr : s.value = s.max_value →
      release s = .error "Semaphore released too many times" := by
    intro he
    rw [release, if_pos he.ge]
  refine ⟨⟨fun ⟨e, he⟩ => ?_, fun he => ⟨_, herr he⟩⟩, herr, hok⟩
  by_contra hne
  rw [hok (lt_of_le_of_ne h hne)] at he
  cases he

/-- C2 counterexample: in the state `c2_t11` — reached from a fresh
capacity-2 semaphore purely through modelled operations — the counter is
1 while waiters W4 and W5 are queued and W4's future was cancelled before
any grant; W4's cancellation path then changes the counter from 1 to 0,
because the concluding top-up pass grants W5 with the free permit.  The
claim's words "removed from the queue with no counter change" are false
here. -/
theorem C2_counterexample :
    c2_t11.value = 1 ∧ (⟨0, 4, .cancelledF⟩ : Waiter) ∈ c2_t11.waiters ∧
      (⟨0, 5, .pending⟩ : Waiter) ∈ c2_t11.waiters ∧
      (acquire_on_cancel c2_t11 ⟨0, 4, .cancelledF⟩).1.value = 0 := by decide

/-- C2 (amended): if a suspended `acquire` is cancelled after its future
was resolved but before the grant was consumed, the waiter is removed,
the counter is incremented exactly once, the top-up pass runs — granting
the first eligible (non-done) queued waiter with the restored permit when
one exists — and the cancellation is re-raised, never a successful
acquire.  If cancellation lands before any grant (future cancelled), the
waiter is removed with no increment, and the handler itself changes the
counter only through the same concluding top-up pass, which does nothing
when the counter is ≤ 0. -/
theorem C2_cancellation_repair (s : SemState) (w : Waiter) :
    (w.fut = .resolved →
      acquire_on_cancel s w =
        (top_up { s with value := s.value + 1, waiters := s.waiters.erase w },
          .error ())) ∧
    (w.fut = .cancelledF →
      acquire_on_cancel s w =
        (top_up { s with waiters := s.waiters.erase w }, .error ())) ∧
    (∀ t : SemState, t.value ≤ 0 → top_up t = t) ∧
    (∀ t : SemState, 0 < t.value → pending_count t.waiters ≠ 0 →
      (top_up t).waiters =
        mark_pending (min t.value.toNat (pending_count t.waiters)) t.waiters ∧
      1 ≤ min t.value.toNat (pending_count t.waiters)) := by
  refine ⟨fun hf => ?_, fun hf => ?_, fun t ht => ?_, fun t ht hp => ?_⟩
  · rw [acquire_on_cancel]
    rw [hf]
    simp
  · rw [acquire_on_cancel]
    rw [hf]
    simp
  · rw [top_up_eq]
    have hz : t.value.toNat = 0 := by omega
    rw [hz]
    simp [mark_pending_zero]
  · rw [top_up_eq]
    refine ⟨rfl, ?_⟩
    omega

/-- C2 witness: post-grant cancellation of W1 on a drained capacity-1
semaphore with W2 still pending: the permit is restored and immediately
re-granted to W2, and the cancellation propagates. -/
theorem C2_cancellation_repair_witness :
    acquire_on_cancel ⟨0, 1, 2, [⟨0, 1, .resolved⟩, ⟨0, 2, .pending⟩]⟩
        ⟨0, 1, .resolved⟩ =
      (⟨0, 1, 2, [⟨0, 2, .resolved⟩]⟩, .error ()) := by
  have h :=
    (C2_cancellation_repair ⟨0, 1, 2, [⟨0, 1, .resolved⟩, ⟨0, 2, .pending⟩]⟩
        ⟨0, 1, .resolved⟩).1 rfl
  exact h

/-- C6: when the platform timer fires early relative to `_when`, the
callback is not invoked and the timer is re-armed at `_when`; when it
fires at or after `_when`, the armed state clears and the callback runs
exactly once.  In the scenario `reschedule(5)` at t=0 then
`reschedule(10)` at t=1, the armed timer fires at t=5 without a callback
and re-arms at 11; the fire at t=11 = 1 + 10 produces the single callback
invocation of the whole trace. -/
theorem C6_single_callback (s : TimerState) (now : Int) :
    (now < s.when → timeout_trigger now s = { s with timer := some s.when }) ∧
    (s.when ≤ now →
      timeout_trigger now s =
        { s with timer := none, fired := s.fired ++ [now] }) ∧
    (c6_s2.timer = some 5 ∧ c6_s2.fired = [] ∧ c6_s3.timer = some 11 ∧
      c6_s3.fired = [] ∧ c6_s4.fired = [11] ∧ c6_s4.timer = none ∧
      (11 : Int) = 1 + 10) := by
  refine ⟨fun h => ?_, fun h => ?_, by decide⟩
  · rw [timeout_trigger, if_pos (by omega)]
  · rw [timeout_trigger, if_neg (by omega)]

/-- C6 witness: the early fire at t=5 of the scenario, discharged through
the general early-fire clause. -/
theorem C6_single_callback_witness :
    (5 : Int) < c6_s2.when ∧
      timeout_trigger 5 c6_s2 = { c6_s2 with timer := some c6_s2.when } :=
  ⟨by decide, (C6_single_callback c6_s2 5).1 (by decide)⟩

/-- Along every balanced execution that never cancels a task whose future
was failed by `cancel_waiting`, the conservation equation holds, hence
`value ≤ max_value` everywhere, and `value + 1 ≤ max_value` whenever a
granted-unconsumed waiter exists (the cancellation-repair window).  This
localizes the C10 failure: only the excluded event can break the bound. -/
theorem bounded_without_excepted_cancel (v : Int) (c : Config)
    (h : Relation.ReflTransGen (Step false) ⟨SemState.init v, 0⟩ c) :
    Inv c ∧ c.sem.value ≤ c.sem.max_value ∧
      (resolved_count c.sem.waiters ≠ 0 →
        c.sem.value + 1 ≤ c.sem.max_value) := by
  have hInv : Inv c := by
    induction h with
    | refl => simp [Inv, SemState.init, resolved_count]
    | tail _ hstep ih => exact hstep.preserves_Inv ih
  refine ⟨hInv, ?_, fun hr => ?_⟩
  · unfold Inv at hInv
    omega
  · unfold Inv at hInv
    omega

/-- C10: the claimed bound fails on the program.  Balanced trace on a
capacity-1 semaphore: H acquires (counter 0); W's `acquire` suspends;
`cancel_waiting` fails W's future with an exception (done, not
cancelled); H releases its permit (counter 1; `_wake_up_next` skips the
done future, granting nothing); W's task is then cancelled — `asyncio`
throws `CancelledError` into a task awaiting an already-done future — and
the repair guard `fut.done() and not fut.cancelled()` accepts the
exception-failed future, so `self._value += 1` runs although no permit
was ever granted to W.  The semaphore settles observably at
`value = 2 > max_value = 1`, with every release matched by a successful
unreleased acquire, refuting `value ≤ max_value` and the conservation
equation. -/
theorem C10_excepted_cancel_overflow :
    Relation.ReflTransGen (Step true) ⟨SemState.init 1, 0⟩
        ⟨⟨2, 1, 1, []⟩, 0⟩ ∧
      (⟨⟨2, 1, 1, []⟩, 0⟩ : Config).sem.value >
        (⟨⟨2, 1, 1, []⟩, 0⟩ : Config).sem.max_value ∧
      ¬ Inv ⟨⟨2, 1, 1, []⟩, 0⟩ := by
  refine ⟨?_, by decide, by unfold Inv; decide⟩
  exact Relation.ReflTransGen.tail
    (Relation.ReflTransGen.tail
      (Relation.ReflTransGen.tail
        (Relation.ReflTransGen.tail
          (Relation.ReflTransGen.single
            (Step.acquire_imm ⟨SemState.init 1, 0⟩ 0 ⟨0, 1, 0, []⟩ rfl))
          (Step.acquire_enq ⟨⟨0, 1, 0, []⟩, 1⟩ 0
            ⟨0, 1, 1, [⟨0, 1, .pending⟩]⟩ ⟨0, 1, .pending⟩ rfl))
        (Step.cancel_all ⟨⟨0, 1, 1, [⟨0, 1, .pending⟩]⟩, 1⟩))
      (Step.release_ok ⟨⟨0, 1, 1, [⟨0, 1, .excepted⟩]⟩, 1⟩
        ⟨1, 1, 1, [⟨0, 1, .excepted⟩]⟩ (by decide) rfl))
    (Step.cancel_repair ⟨⟨1, 1, 1, [⟨0, 1, .excepted⟩]⟩, 0⟩
      ⟨0, 1, .excepted⟩ (by decide) (Or.inr (Or.inr ⟨rfl, rfl⟩)))

/-- C7 counterexample: in `c7_b` (objects 0 and 1 tracked, expiries 5 and
1) object 0 is tracked and unexpired at t=3, yet `filter(0, 5)` modifies
the tracked-entry structures: the `clean` it runs first drops the expired
entry of object 1. -/
theorem C7_counterexample :
    (is_filtered 3 0 c7_b).1 = true ∧
      (DebState.filter 3 0 5 c7_b).1 = true ∧
      (DebState.filter 3 0 5 c7_b).2.times ≠ c7_b.times := by decide

/-- C7 (amended): `filter(obj, expire_in)` first runs `clean`, whose
expiry purge is the only modification in the already-tracked case: if
`obj` survives the clean the call returns true with `_times` and `_queue`
exactly as `clean` left them; otherwise it returns false and records
`obj` with expiry `now + expire_in` in both structures, inserting into
the queue at the sort-preserving position with the updated tie-break
counter.  Scenario: a first `filter("x", 1)` returns false, an immediate
second returns true, and a third after the clock passes the expiry
returns false again. -/
theorem C7_filter_records (s : DebState) (now : Int) (obj : Nat) (e : Int) :
    (((s.clean now).times.any fun p => p.1 == obj) = true →
      (DebState.filter now obj e s).1 = true ∧
      (DebState.filter now obj e s).2.times = (s.clean now).times ∧
      (DebState.filter now obj e s).2.queue = (s.clean now).queue) ∧
    (((s.clean now).times.any fun p => p.1 == obj) = false →
      (DebState.filter now obj e s).1 = false ∧
      (DebState.filter now obj e s).2.times =
        (s.clean now).times ++ [(obj, now + e)] ∧
      (DebState.filter now obj e s).2.queue =
        insort_right_q
          (-(now + e), (if now > s.last_time then 0 else s.dedup_counter) + 1,
            obj)
          (s.clean now).queue) ∧
    ((DebState.filter 1 7 1 DebState.init).1 = false ∧
      (DebState.filter 1 7 1 (DebState.filter 1 7 1 DebState.init).2).1 =
        true ∧
      (DebState.filter 3 7 1
          (DebState.filter 1 7 1
            (DebState.filter 1 7 1 DebState.init).2).2).1 = false) := by
  by_cases hlt : now > s.last_time
  case pos =>
    obtain ⟨ht2, hq2⟩ :=
      clean_counter_fields now s
        { s with last_time := now, dedup_counter := 0 + 1 } rfl rfl
    refine ⟨fun hany => ?_, fun hany => ?_, by decide⟩
    · unfold DebState.filter is_filtered
      rw [if_pos hlt]
      dsimp only
      rw [ht2, hany, if_pos rfl]
      exact ⟨rfl, ht2, hq2⟩
    · unfold DebState.filter is_filtered
      rw [if_pos hlt]
      dsimp only
      rw [ht2, hany, if_neg Bool.false_ne_true]
      rw [if_pos hlt]
      exact ⟨rfl, rfl, by rw [hq2]⟩
  case neg =>
    obtain ⟨ht2, hq2⟩ :=
      clean_counter_fields now s
        { s with dedup_counter := s.dedup_counter + 1 } rfl rfl
    refine ⟨fun hany => ?_, fun hany => ?_, by decide⟩
    · unfold DebState.filter is_filtered
      rw [if_neg hlt]
      dsimp only
      rw [ht2, hany, if_pos rfl]
      exact ⟨rfl, ht2, hq2⟩
    · unfold DebState.filter is_filtered
      rw [if_neg hlt]
      dsimp only
      rw [ht2, hany, if_neg Bool.false_ne_true]
      rw [if_neg hlt]
      exact ⟨rfl, rfl, by rw [hq2]⟩

/-- C7 witness: the amended claim instantiated at the not-tracked branch
of a fresh debouncer. -/
theorem C7_filter_records_witness :
    ((DebState.init.clean 1).times.any fun p => p.1 == 7) = false ∧
      (DebState.filter 1 7 1 DebState.init).1 = false :=
  ⟨by decide, ((C7_filter_records DebState.init 1 7 1).2.1 (by decide)).1⟩

/-- C8 counterexample: object 0 is tracked with expiry exactly 5; at
`now = 5` the claim demands removal (expiry ≤ now), but `clean(5)` leaves
the state untouched — the loop condition is strict — and the entry still
counts toward `is_filtered`. -/
theorem C8_counterexample :
    (0, (5 : Int)) ∈ c7_a.times ∧ DebState.clean 5 c7_a = c7_a ∧
      (is_filtered 5 0 c7_a).1 = true := by decide

/-- C8 (amended): on a well-formed debouncer, `clean(now)` removes from
both structures exactly the entries whose expiry is strictly less than
`now` and no other entry; after `clean`, entries with expiry < now no
longer count toward `is_filtered`, while an entry expiring exactly at
`now` is retained and still counts. -/
theorem C8_clean_strict (now : Int) (s : DebState) (h : deb_wf s) :
    (s.clean now).queue = s.queue.filter (fun e => decide (now ≤ -e.1)) ∧
    (∀ o t, (o, t) ∈ (s.clean now).times ↔ ((o, t) ∈ s.times ∧ now ≤ t)) ∧
    (∀ o, (is_filtered now o s).1 = true ↔
      ∃ t, (o, t) ∈ s.times ∧ now ≤ t) := by
  obtain ⟨hq, ht⟩ :=
    clean_spec now s.queue s.times s.last_time s.dedup_counter h
  refine ⟨hq, ht, fun o => ?_⟩
  unfold is_filtered
  dsimp only
  rw [List.any_eq_true]
  constructor
  · rintro ⟨p, hp, hpo⟩
    have hpo2 : p.1 = o := by simpa using hpo
    have hm : (o, p.2) ∈ (s.clean now).times := by
      rw [← hpo2]
      exact hp
    exact ⟨p.2, (ht o p.2).mp hm⟩
  · rintro ⟨t, hmem, hle⟩
    exact ⟨(o, t), (ht o t).mpr ⟨hmem, hle⟩, by simp⟩

/-- C8 witness: the amended claim at the one-entry state `c7_a`: cleaning
at t=6 drops the entry whose expiry 5 is strictly past. -/
theorem C8_clean_strict_witness :
    (DebState.clean 6 c7_a).queue =
      c7_a.queue.filter fun e => decide ((6 : Int) ≤ -e.1) :=
  (C8_clean_strict 6 c7_a (by
    have hc : c7_a = ⟨[(0, 5)], [(-5, 1, 0)], 0, 1⟩ := by decide
    rw [hc]
    refine ⟨by decide, fun o t => ?_, by decide, by decide⟩
    dsimp only
    constructor
    · intro hm
      simp only [List.mem_singleton, Prod.mk.injEq] at hm
      exact ⟨1, by simp [hm.1, hm.2]⟩
    · rintro ⟨cnt, hm⟩
      simp only [List.mem_singleton, Prod.mk.injEq] at hm
      simp only [List.mem_singleton, Prod.mk.injEq]
      omega)).1

/-- C9: the pairwise-distinct-prefix property fails on the code — it is
the intent of the source comment ("`obj` will never be compared") and of
the spec, but the counter reset breaks it: `filter(0, 10)` at t=5 and
`filter(1, 9)` at t=6 are both recorded (both unexpired), yet the reset
on the clock advance gives both entries the key prefix `(-15, 1)`, so a
`bisect` insertion comparing these tuples reaches the payloads. -/
theorem C9_duplicate_key_prefix :
    c9_b.times = [(0, 15), (1, 15)] ∧
      c9_b.queue = [(-15, 1, 0), (-15, 1, 1)] ∧
      ¬ (c9_b.queue.map fun e => (e.1, e.2.1)).Nodup := by decide

/-- C5 witness: releasing a full capacity-1 semaphore fails; releasing a
drained one increments the counter. -/
theorem C5_release_over_release_witness :
    (0 : Int) ≤ 1 ∧ release ⟨0, 1, 0, []⟩ = .ok ⟨1, 1, 0, []⟩ ∧
      release ⟨1, 1, 0, []⟩ = .error "Semaphore released too many times" :=
  ⟨by decide,
    by
      have h := (C5_release_over_release ⟨0, 1, 0, []⟩ (by decide)).2.2 (by decide)
      exact h,
    (C5_release_over_release ⟨1, 1, 0, []⟩ (by decide)).2.1 (by decide)⟩

end Zigpy
